import Mathlib

/-!
# Verification of the Wedding-RSVP client service core

Shallow embedding of the client-side service-dispatch core of the
Wedding-RSVP repository:

* the fixed-window rate limiter (`checkRateLimit` in the security utilities),
* the expiring cache inside `BaseService` (`getCacheKey`, `setCache`,
  `getCache`, `clearCache`) and the cache effects of its CRUD operations,
* the error normalizer (`ApiClient.handleResponse`, `ApiClient.request`)
  and the presentation mapping (`ApiErrorHandler.handleError`).

JavaScript `Map`s are modelled as association lists, timestamps and
durations as integers (milliseconds), and JavaScript truthiness of the
relevant values (`undefined`, `0`, `""` are falsy) is made explicit at
every `||` / `??` translated from the source.
-/

set_option autoImplicit false

namespace WeddingRSVP

universe u v

/-! ### Association-list maps

JavaScript `Map` objects (`rateLimitMap` in the security utilities,
`this.cache` in `BaseService`) are modelled as association lists with
string keys: `mapGet` is `Map.get`, `mapSet` is `Map.set`
(overwrite-or-append), `mapDelete` is `Map.delete`. -/

def mapGet {β : Type u} (m : List (String × β)) (k : String) : Option β :=
  match m with
  | [] => none
  | (k2, v) :: t => if k2 = k then some v else mapGet t k

def mapSet {β : Type u} (m : List (String × β)) (k : String) (v : β) :
    List (String × β) :=
  match m with
  | [] => [(k, v)]
  | (k2, v2) :: t => if k2 = k then (k, v) :: t else (k2, v2) :: mapSet t k v

def mapDelete {β : Type u} (m : List (String × β)) (k : String) :
    List (String × β) :=
  m.filter (fun kv => kv.1 != k)

/-! ### Rate limiter

Embedding of `checkRateLimit` from the security utilities
(`rateLimitMap` keyed by `"rate_limit:" + identifier`):

```
if (!current || now > current.resetTime) ... count: 1, resetTime: now + windowMs
if (current.count >= maxRequests) ... allowed: false
current.count++ ... allowed: true
```
-/

structure RateRecord where
  count : Nat
  resetTime : Nat
deriving Repr, DecidableEq

structure RateLimitResult where
  allowed : Bool
  resetTime : Nat
deriving Repr, DecidableEq

abbrev RateLimitMap := List (String × RateRecord)

def rateLimitKey (identifier : String) : String := "rate_limit:" ++ identifier

def checkRateLimit (m : RateLimitMap) (now : Nat) (identifier : String)
    (maxRequests : Nat) (windowMs : Nat) : RateLimitResult × RateLimitMap :=
  let key := rateLimitKey identifier
  match mapGet m key with
  | none => (⟨true, now + windowMs⟩, mapSet m key ⟨1, now + windowMs⟩)
  | some current =>
    if now > current.resetTime then
      (⟨true, now + windowMs⟩, mapSet m key ⟨1, now + windowMs⟩)
    else if current.count ≥ maxRequests then
      (⟨false, current.resetTime⟩, m)
    else
      (⟨true, current.resetTime⟩, mapSet m key ⟨current.count + 1, current.resetTime⟩)

/-! ### JavaScript truthiness helpers

`jsOrInt o d` is `o || d` for a possibly-undefined number (`undefined` and
`0` are falsy); `jsOrStr o d` is `o || d` for a possibly-undefined string
(`undefined` and `""` are falsy); `jsNonEmptyOr s d` is `s || d` for a
plain string. -/

def jsOrInt (o : Option Int) (d : Int) : Int :=
  match o with
  | none => d
  | some t => if t = 0 then d else t

def jsOrStr (o : Option String) (d : String) : String :=
  match o with
  | none => d
  | some v => if v = "" then d else v

def jsNonEmptyOr (s d : String) : String := if s = "" then d else s

/-! ### Substring test

`strIncludes s pat` is JavaScript `s.includes(pat)`, used by
`BaseService.clearCache`. -/

def hasSub : List Char → List Char → Bool
  | [], pat => pat.isEmpty
  | c :: t, pat => pat.isPrefixOf (c :: t) || hasSub t pat

def strIncludes (s pat : String) : Bool := hasSub s.data pat.data

/-! ### Expiring cache and service state

Embedding of the cache-management part of `BaseService`
(`base-service.ts`): `ServiceConfig`, the constructor defaults
(`config.cacheTimeout || 5 * 60 * 1000`, `config.enableCache ?? true`),
`getCacheKey`, `setCache` (whose stored ttl is `ttl || this.cacheTimeout`),
`getCache` (expiry test `now - entry.timestamp > entry.ttl`, lazy eviction)
and `clearCache` (substring-pattern invalidation).  Times are integer
milliseconds. -/

structure CacheEntry (α : Type u) where
  data : α
  timestamp : Int
  ttl : Int
deriving Repr, DecidableEq

structure ServiceConfig where
  baseEndpoint : String
  cacheTimeout : Option Int
  enableCache : Option Bool
deriving Repr, DecidableEq

structure ServiceState (α : Type u) where
  endpoint : String
  cache : List (String × CacheEntry α)
  cacheTimeout : Int
  enableCache : Bool
deriving Repr, DecidableEq

def defaultCacheTimeoutMs : Int := 5 * 60 * 1000

def initService (α : Type u) (config : ServiceConfig) : ServiceState α :=
  { endpoint := config.baseEndpoint
    cache := []
    cacheTimeout := jsOrInt config.cacheTimeout defaultCacheTimeoutMs
    enableCache := config.enableCache.getD true }

def getCacheKey (endpoint method paramsJson : String) : String :=
  endpoint ++ ":" ++ method ++ ":" ++ paramsJson

def setCache {α : Type u} (s : ServiceState α) (key : String) (data : α)
    (ttl : Option Int) (now : Int) : ServiceState α :=
  if s.enableCache = false then s
  else { s with cache := mapSet s.cache key ⟨data, now, jsOrInt ttl s.cacheTimeout⟩ }

def getCache {α : Type u} (s : ServiceState α) (key : String) (now : Int) :
    Option α × ServiceState α :=
  if s.enableCache = false then (none, s)
  else
    match mapGet s.cache key with
    | none => (none, s)
    | some e =>
      if now - e.timestamp > e.ttl then (none, { s with cache := mapDelete s.cache key })
      else (some e.data, s)

def clearCache {α : Type u} (s : ServiceState α) (pattern : Option String) :
    ServiceState α :=
  match pattern with
  | some p => { s with cache := s.cache.filter (fun kv => !(strIncludes kv.1 p)) }
  | none => { s with cache := [] }

/-! ### Error normalizer (`api-client.ts`)

`ApiErrorClass` is the typed error; `handleResponse` parses/validates a
received response; `request` is the catch-all wrapper around
`fetch` + `handleResponse`.  Its `catch` block rewraps *any* caught
`Error` — including the `ApiErrorClass` instances thrown by
`handleResponse`, which extend `Error` — as
`ApiErrorClass(error.message, 0, 'NETWORK_ERROR')`. -/

abbrev ErrDetails := List (String × List String)

structure ApiErrorClass where
  message : String
  status : Nat
  code : Option String
  details : Option ErrDetails
deriving Repr, DecidableEq

structure ResponseBody where
  message : Option String
  code : Option String
  errors : Option ErrDetails
  details : Option ErrDetails
deriving Repr, DecidableEq

structure HttpResponse where
  status : Nat
  statusText : String
  parsed : Option ResponseBody
deriving Repr, DecidableEq

def responseOk (r : HttpResponse) : Bool := 200 ≤ r.status && r.status < 300

structure ApiResponse where
  data : ResponseBody
  status : Nat
  message : Option String
deriving Repr, DecidableEq

def jsOrDetails (a b : Option ErrDetails) : Option ErrDetails :=
  match a with
  | some d => some d
  | none => b

def handleResponse (r : HttpResponse) : Except ApiErrorClass ApiResponse :=
  match r.parsed with
  | none => .error ⟨"Failed to parse response", r.status, none, none⟩
  | some body =>
    if responseOk r = false then
      .error ⟨jsOrStr body.message ("HTTP " ++ toString r.status ++ ": " ++ r.statusText),
              r.status, body.code, jsOrDetails body.errors body.details⟩
    else
      .ok ⟨body, r.status, body.message⟩

inductive FetchOutcome where
  | networkFailure (message : String)
  | response (r : HttpResponse)
deriving Repr, DecidableEq

def request (outcome : FetchOutcome) : Except ApiErrorClass ApiResponse :=
  match outcome with
  | .networkFailure msg => .error ⟨msg, 0, some "NETWORK_ERROR", none⟩
  | .response r =>
    match handleResponse r with
    | .ok v => .ok v
    | .error e => .error ⟨e.message, 0, some "NETWORK_ERROR", none⟩

/-! ### Presentation mapping (`ApiErrorHandler.handleError`) -/

def joinDetails (d : ErrDetails) : String :=
  String.intercalate ", " (d.map Prod.snd).flatten

def handleError (e : ApiErrorClass) : String :=
  if e.status = 400 then
    match e.details with
    | some d => joinDetails d
    | none => jsNonEmptyOr e.message "Bad request"
  else if e.status = 401 then "Your session has expired. Please log in again."
  else if e.status = 403 then "You do not have permission to perform this action."
  else if e.status = 404 then "The requested resource was not found."
  else if e.status = 409 then "This action conflicts with existing data."
  else if e.status = 422 then
    match e.details with
    | some d => joinDetails d
    | none => "Validation failed. Please check your input."
  else if e.status = 500 then "An internal server error occurred. Please try again later."
  else if e.status = 0 then "Unable to connect to the server. Please check your internet connection."
  else jsNonEmptyOr e.message "An unexpected error occurred."

/-! ### `JSON.stringify` model for cache-key parameters

`getCacheKey(method, ...params)` serializes its rest array with
`JSON.stringify`.  The operations of `BaseService` pass either one
possibly-undefined record of strings (`getAll`, `search`, `getPaginated`)
or one string (`getById`).  `JSON.stringify` emits object properties in
insertion order and escapes `\` and `"` in strings; records are modelled
as association lists in insertion order. -/

def jsonEscape : List Char → List Char
  | [] => []
  | c :: t =>
    if c = '\\' then '\\' :: '\\' :: jsonEscape t
    else if c = '"' then '\\' :: '"' :: jsonEscape t
    else c :: jsonEscape t

def jsonQuote (s : String) : String :=
  "\"" ++ String.mk (jsonEscape s.data) ++ "\""

def jsonRecordBody : List (String × String) → String
  | [] => ""
  | (k, v) :: t =>
    jsonQuote k ++ ":" ++ jsonQuote v ++
      (match t with
       | [] => ""
       | _ :: _ => "," ++ jsonRecordBody t)

def jsonRecord (ps : List (String × String)) : String :=
  "\x7b" ++ jsonRecordBody ps ++ "\x7d"

def jsonRecordArg (params : Option (List (String × String))) : String :=
  match params with
  | none => "[null]"
  | some ps => "[" ++ jsonRecord ps ++ "]"

def jsonStringArg (s : String) : String := "[" ++ jsonQuote s ++ "]"

-- Character-list normal form of `jsonRecordBody`, used to reason about
-- injectivity of the serialization.
def entriesData : List (String × String) → List Char
  | [] => []
  | (k, v) :: t =>
    '"' :: (jsonEscape k.data ++ '"' :: ':' :: '"' :: (jsonEscape v.data ++ '"' ::
      (match t with
       | [] => []
       | _ :: _ => ',' :: entriesData t)))

/-! ### Service operations

Cache effects of the `BaseService` / `ExtendedBaseService` operations.
Each read computes its cache key, consults `getCache`, and on a miss
stores the transport response (`search` with the literal ttl `60000` from
the source, the others with no ttl argument, hence the default).  Each
write invalidates per the source: `create` / `bulkCreate` call
`clearCache('getAll')`, the others call `clearCache()`.  The returned
`Bool` is `true` iff the operation was served from the cache. -/

def searchCacheTTLms : Int := 60000

inductive ServiceOp (α : Type u) where
  | getAll (params : Option (List (String × String))) (resp : α) (now : Int)
  | getById (id : String) (resp : α) (now : Int)
  | create (resp : α) (now : Int)
  | update (id : String) (resp : α) (now : Int)
  | patch (id : String) (resp : α) (now : Int)
  | del (id : String) (now : Int)
  | bulkCreate (resp : α) (now : Int)
  | bulkUpdate (resp : α) (now : Int)
  | bulkDelete (ids : List String) (now : Int)
  | search (q : String) (filters : List (String × String)) (resp : α) (now : Int)
  | getPaginated (page : Nat) (limit : Nat) (filters : List (String × String))
      (resp : α) (now : Int)

def cachedRead {α : Type u} (s : ServiceState α) (key : String) (resp : α)
    (ttl : Option Int) (now : Int) : ServiceState α × Bool :=
  let r := getCache s key now
  match r.1 with
  | some _ => (r.2, true)
  | none => (setCache r.2 key resp ttl now, false)

def runOp {α : Type u} (s : ServiceState α) : ServiceOp α → ServiceState α × Bool
  | .getAll params resp now =>
    cachedRead s (getCacheKey s.endpoint "getAll" (jsonRecordArg params)) resp none now
  | .getById id resp now =>
    cachedRead s (getCacheKey s.endpoint "getById" (jsonStringArg id)) resp none now
  | .create _ _ => (clearCache s (some "getAll"), false)
  | .update _ _ _ => (clearCache s none, false)
  | .patch _ _ _ => (clearCache s none, false)
  | .del _ _ => (clearCache s none, false)
  | .bulkCreate _ _ => (clearCache s (some "getAll"), false)
  | .bulkUpdate _ _ => (clearCache s none, false)
  | .bulkDelete _ _ => (clearCache s none, false)
  | .search q filters resp now =>
    cachedRead s (getCacheKey s.endpoint "search" (jsonRecordArg (some (("q", q) :: filters))))
      resp (some searchCacheTTLms) now
  | .getPaginated page limit filters resp now =>
    cachedRead s
      (getCacheKey s.endpoint "getPaginated"
        (jsonRecordArg (some (("page", toString page) :: ("limit", toString limit) :: filters))))
      resp none now

def runOps {α : Type u} (s : ServiceState α) : List (ServiceOp α) → ServiceState α × List Bool
  | [] => (s, [])
  | op :: t =>
    let r := runOp s op
    let rest := runOps r.1 t
    (rest.1, r.2 :: rest.2)

/-! ### Rate-limiter request sequences

`runRateRequests` threads the shared `rateLimitMap` through a sequence of
`checkRateLimit` calls; `resultsFor y` projects out the results returned
to identity `y`.  `singleStep` / `runSingle` describe the evolution of a
single identity's record in isolation. -/

structure RateRequest where
  identifier : String
  now : Nat
  maxRequests : Nat
  windowMs : Nat
deriving Repr, DecidableEq

def runRateRequests (m : RateLimitMap) : List RateRequest → List (String × RateLimitResult)
  | [] => []
  | r :: t =>
    let step := checkRateLimit m r.now r.identifier r.maxRequests r.windowMs
    (r.identifier, step.1) :: runRateRequests step.2 t

def resultsFor (y : String) (m : RateLimitMap) (reqs : List RateRequest) :
    List RateLimitResult :=
  (runRateRequests m reqs).filterMap (fun p => if p.1 = y then some p.2 else none)

def singleStep (rec : Option RateRecord) (now maxRequests windowMs : Nat) :
    RateLimitResult × RateRecord :=
  match rec with
  | none => (⟨true, now + windowMs⟩, ⟨1, now + windowMs⟩)
  | some current =>
    if now > current.resetTime then (⟨true, now + windowMs⟩, ⟨1, now + windowMs⟩)
    else if current.count ≥ maxRequests then (⟨false, current.resetTime⟩, current)
    else (⟨true, current.resetTime⟩, ⟨current.count + 1, current.resetTime⟩)

def runSingle (rec : Option RateRecord) : List RateRequest → List RateLimitResult
  | [] => []
  | r :: t =>
    let step := singleStep rec r.now r.maxRequests r.windowMs
    step.1 :: runSingle (some step.2) t

/-! ## Helper lemmas -/

/-! ### Association-list maps -/

theorem mapGet_mapSet_same {β : Type u} (m : List (String × β)) (k : String) (v : β) :
    mapGet (mapSet m k v) k = some v := by
  induction m with
  | nil => simp [mapGet, mapSet]
  | cons hd t ih =>
    obtain ⟨k2, v2⟩ := hd
    by_cases h : k2 = k
    · simp [mapGet, mapSet, h]
    · simp [mapGet, mapSet, h, ih]

theorem mapGet_mapSet_ne {β : Type u} (m : List (String × β)) (k1 k2 : String) (v : β)
    (h : k1 ≠ k2) : mapGet (mapSet m k1 v) k2 = mapGet m k2 := by
  induction m with
  | nil => simp [mapGet, mapSet, h]
  | cons hd t ih =>
    obtain ⟨k3, v3⟩ := hd
    by_cases h3 : k3 = k1
    · subst h3
      simp [mapGet, mapSet, h]
    · simp only [mapSet, if_neg h3]
      by_cases h4 : k3 = k2
      · simp [mapGet, h4]
      · simp [mapGet, h4, ih]

theorem mapSet_self {β : Type u} (m : List (String × β)) (k : String) (v : β)
    (h : mapGet m k = some v) : mapSet m k v = m := by
  induction m with
  | nil => simp [mapGet] at h
  | cons hd t ih =>
    obtain ⟨k2, v2⟩ := hd
    by_cases h2 : k2 = k
    · subst h2
      simp [mapGet] at h
      simp [mapSet, h]
    · simp [mapGet, h2] at h
      simp [mapSet, h2, ih h]

theorem mapGet_mapDelete_same {β : Type u} (m : List (String × β)) (k : String) :
    mapGet (mapDelete m k) k = none := by
  induction m with
  | nil => rfl
  | cons hd t ih =>
    obtain ⟨k2, v2⟩ := hd
    by_cases h : k2 = k
    · simpa [mapDelete, h] using ih
    · simpa [mapDelete, mapGet, h] using ih

theorem mapGet_filter_out {β : Type u} (m : List (String × β)) (p : String → Bool)
    (k : String) (hk : p k = false) :
    mapGet (m.filter (fun kv => p kv.1)) k = none := by
  induction m with
  | nil => rfl
  | cons hd t ih =>
    obtain ⟨k2, v2⟩ := hd
    by_cases hp : p k2 = true
    · have hne : k2 ≠ k := by
        intro he
        rw [he, hk] at hp
        exact Bool.noConfusion hp
      simpa [List.filter, hp, mapGet, hne] using ih
    · simp only [Bool.not_eq_true] at hp
      simpa [List.filter, hp] using ih

theorem mapGet_filter_keep {β : Type u} (m : List (String × β)) (p : String → Bool)
    (k : String) (hk : p k = true) :
    mapGet (m.filter (fun kv => p kv.1)) k = mapGet m k := by
  induction m with
  | nil => rfl
  | cons hd t ih =>
    obtain ⟨k2, v2⟩ := hd
    by_cases hp : p k2 = true
    · by_cases he : k2 = k
      · simp [List.filter, hp, mapGet, he, hk]
      · simpa [List.filter, hp, mapGet, he] using ih
    · simp only [Bool.not_eq_true] at hp
      have hne : k2 ≠ k := by
        intro he
        rw [he, hk] at hp
        exact Bool.noConfusion hp
      simpa [List.filter, hp, mapGet, hne] using ih

/-! ### String concatenation cancellation -/

theorem str_append_cancel_right (a b c : String) (h : a ++ c = b ++ c) : a = b := by
  apply String.ext
  have hd : a.data ++ c.data = b.data ++ c.data := by
    have h2 := congrArg String.data h
    simpa [String.data_append] using h2
  exact List.append_cancel_right hd

theorem str_append_cancel_left (a b c : String) (h : a ++ b = a ++ c) : b = c := by
  apply String.ext
  have hd : a.data ++ b.data = a.data ++ c.data := by
    have h2 := congrArg String.data h
    simpa [String.data_append] using h2
  exact List.append_cancel_left hd

theorem rateLimitKey_injective (x y : String) (h : rateLimitKey x = rateLimitKey y) :
    x = y :=
  str_append_cancel_left "rate_limit:" x y h

theorem getCacheKey_inj_endpoint (e1 e2 m p : String)
    (h : getCacheKey e1 m p = getCacheKey e2 m p) : e1 = e2 := by
  apply String.ext
  have h2 := congrArg String.data h
  simp only [getCacheKey, String.data_append, List.append_assoc] at h2
  exact List.append_cancel_right h2

theorem getCacheKey_inj_method (e m1 m2 p : String)
    (h : getCacheKey e m1 p = getCacheKey e m2 p) : m1 = m2 := by
  apply String.ext
  have h2 := congrArg String.data h
  simp only [getCacheKey, String.data_append, List.append_assoc] at h2
  have h3 := List.append_cancel_left (List.append_cancel_left h2)
  simp only [← List.append_assoc] at h3
  exact List.append_cancel_right (List.append_cancel_right h3)

theorem getCacheKey_inj_params (e m p1 p2 : String)
    (h : getCacheKey e m p1 = getCacheKey e m p2) : p1 = p2 := by
  apply String.ext
  have h2 := congrArg String.data h
  simp only [getCacheKey, String.data_append, List.append_assoc] at h2
  exact List.append_cancel_left (List.append_cancel_left
    (List.append_cancel_left (List.append_cancel_left h2)))

/-! ### Substring facts -/

theorem isPrefixOf_self_append (l r : List Char) : l.isPrefixOf (l ++ r) = true := by
  induction l with
  | nil => simp [List.isPrefixOf]
  | cons c t ih => simp [List.isPrefixOf, ih]

theorem hasSub_front (pat b : List Char) : hasSub (pat ++ b) pat = true := by
  cases pat with
  | nil =>
    induction b with
    | nil => rfl
    | cons c t ih => simp [hasSub, List.isPrefixOf]
  | cons p pt =>
    show hasSub (p :: (pt ++ b)) (p :: pt) = true
    simp [hasSub, List.isPrefixOf, isPrefixOf_self_append]

theorem hasSub_append_of (a l pat : List Char) (h : hasSub l pat = true) :
    hasSub (a ++ l) pat = true := by
  induction a with
  | nil => simpa using h
  | cons c t ih => simp [hasSub, ih]

theorem strIncludes_getCacheKey_getAll (e p : String) :
    strIncludes (getCacheKey e "getAll" p) "getAll" = true := by
  show hasSub (getCacheKey e "getAll" p).data ("getAll".data) = true
  have hd : (getCacheKey e "getAll" p).data =
      e.data ++ (":".data ++ ("getAll".data ++ (":".data ++ p.data))) := by
    simp [getCacheKey, String.data_append]
  rw [hd]
  exact hasSub_append_of _ _ _ (hasSub_append_of _ _ _ (hasSub_front _ _))

/-! ### Rate-limiter simulation -/

theorem checkRateLimit_eq_singleStep (m : RateLimitMap) (now : Nat) (id : String)
    (maxR w : Nat) :
    checkRateLimit m now id maxR w =
      ((singleStep (mapGet m (rateLimitKey id)) now maxR w).1,
       mapSet m (rateLimitKey id) (singleStep (mapGet m (rateLimitKey id)) now maxR w).2) := by
  unfold checkRateLimit singleStep
  cases h : mapGet m (rateLimitKey id) with
  | none => simp [h]
  | some c =>
    simp only [h]
    by_cases h1 : now > c.resetTime
    · simp [h1]
    · simp only [if_neg h1]
      by_cases h2 : c.count ≥ maxR
      · simp [h2, mapSet_self m _ c h]
      · simp [h2]

theorem resultsFor_cons (y : String) (m : RateLimitMap) (r : RateRequest)
    (t : List RateRequest) :
    resultsFor y m (r :: t) =
      (if r.identifier = y
       then (checkRateLimit m r.now r.identifier r.maxRequests r.windowMs).1 ::
         resultsFor y (checkRateLimit m r.now r.identifier r.maxRequests r.windowMs).2 t
       else resultsFor y (checkRateLimit m r.now r.identifier r.maxRequests r.windowMs).2 t) := by
  by_cases hy : r.identifier = y <;>
    simp [resultsFor, runRateRequests, List.filterMap_cons, hy]

theorem resultsFor_eq_runSingle (y : String) (reqs : List RateRequest) :
    ∀ m : RateLimitMap,
      resultsFor y m reqs =
        runSingle (mapGet m (rateLimitKey y)) (reqs.filter (fun r => r.identifier == y)) := by
  induction reqs with
  | nil => intro m; rfl
  | cons r t ih =>
    intro m
    rw [resultsFor_cons]
    by_cases hy : r.identifier = y
    · rw [if_pos hy, checkRateLimit_eq_singleStep, hy, ih, mapGet_mapSet_same]
      have hfilter : (r :: t).filter (fun q => q.identifier == y) =
          r :: t.filter (fun q => q.identifier == y) := by
        simp [List.filter_cons, hy]
      rw [hfilter]
      rfl
    · rw [if_neg hy, checkRateLimit_eq_singleStep, ih]
      have hkey : rateLimitKey r.identifier ≠ rateLimitKey y := by
        intro hk
        exact hy (rateLimitKey_injective _ _ hk)
      rw [mapGet_mapSet_ne _ _ _ _ hkey]
      have hfilter : (r :: t).filter (fun q => q.identifier == y) =
          t.filter (fun q => q.identifier == y) := by
        simp [List.filter_cons, hy]
      rw [hfilter]

/-! ### Injectivity of the `JSON.stringify` model -/

theorem jsonEscape_backslash (t : List Char) :
    jsonEscape ('\\' :: t) = '\\' :: '\\' :: jsonEscape t := rfl

theorem jsonEscape_quotechar (t : List Char) :
    jsonEscape ('"' :: t) = '\\' :: '"' :: jsonEscape t := rfl

theorem jsonEscape_plain (c : Char) (t : List Char) (h1 : c ≠ '\\') (h2 : c ≠ '"') :
    jsonEscape (c :: t) = c :: jsonEscape t := by
  simp [jsonEscape, h1, h2]

theorem jsonEscape_quote_cancel (s1 : List Char) : ∀ (s2 r1 r2 : List Char),
    jsonEscape s1 ++ '"' :: r1 = jsonEscape s2 ++ '"' :: r2 → s1 = s2 ∧ r1 = r2 := by
  induction s1 with
  | nil =>
    intro s2 r1 r2 h
    cases s2 with
    | nil =>
      simp only [jsonEscape, List.nil_append] at h
      injection h with _ h2
      exact ⟨rfl, h2⟩
    | cons c2 t2 =>
      by_cases hb : c2 = '\\'
      · subst hb
        rw [jsonEscape_backslash] at h
        simp only [jsonEscape, List.nil_append, List.cons_append] at h
        injection h with h1 _
        exact absurd h1 (by decide)
      · by_cases hq : c2 = '"'
        · subst hq
          rw [jsonEscape_quotechar] at h
          simp only [jsonEscape, List.nil_append, List.cons_append] at h
          injection h with h1 _
          exact absurd h1 (by decide)
        · rw [jsonEscape_plain c2 t2 hb hq] at h
          simp only [jsonEscape, List.nil_append, List.cons_append] at h
          injection h with h1 _
          exact absurd h1.symm hq
  | cons c1 t1 ih =>
    intro s2 r1 r2 h
    cases s2 with
    | nil =>
      by_cases hb : c1 = '\\'
      · subst hb
        rw [jsonEscape_backslash] at h
        simp only [jsonEscape, List.nil_append, List.cons_append] at h
        injection h with h1 _
        exact absurd h1 (by decide)
      · by_cases hq : c1 = '"'
        · subst hq
          rw [jsonEscape_quotechar] at h
          simp only [jsonEscape, List.nil_append, List.cons_append] at h
          injection h with h1 _
          exact absurd h1 (by decide)
        · rw [jsonEscape_plain c1 t1 hb hq] at h
          simp only [jsonEscape, List.nil_append, List.cons_append] at h
          injection h with h1 _
          exact absurd h1 hq
    | cons c2 t2 =>
      by_cases hb1 : c1 = '\\'
      · subst hb1
        rw [jsonEscape_backslash] at h
        by_cases hb2 : c2 = '\\'
        · subst hb2
          rw [jsonEscape_backslash] at h
          simp only [List.cons_append] at h
          injection h with _ h2
          injection h2 with _ h3
          obtain ⟨ht, hr⟩ := ih t2 r1 r2 h3
          exact ⟨by rw [ht], hr⟩
        · by_cases hq2 : c2 = '"'
          · subst hq2
            rw [jsonEscape_quotechar] at h
            simp only [List.cons_append] at h
            injection h with _ h2
            injection h2 with h3 _
            exact absurd h3 (by decide)
          · rw [jsonEscape_plain c2 t2 hb2 hq2] at h
            simp only [List.cons_append] at h
            injection h with h1 _
            exact absurd h1.symm hb2
      · by_cases hq1 : c1 = '"'
        · subst hq1
          rw [jsonEscape_quotechar] at h
          by_cases hb2 : c2 = '\\'
          · subst hb2
            rw [jsonEscape_backslash] at h
            simp only [List.cons_append] at h
            injection h with _ h2
            injection h2 with h3 _
            exact absurd h3 (by decide)
          · by_cases hq2 : c2 = '"'
            · subst hq2
              rw [jsonEscape_quotechar] at h
              simp only [List.cons_append] at h
              injection h with _ h2
              injection h2 with _ h3
              obtain ⟨ht, hr⟩ := ih t2 r1 r2 h3
              exact ⟨by rw [ht], hr⟩
            · rw [jsonEscape_plain c2 t2 hb2 hq2] at h
              simp only [List.cons_append] at h
              injection h with h1 _
              exact absurd h1.symm hb2
        · rw [jsonEscape_plain c1 t1 hb1 hq1] at h
          by_cases hb2 : c2 = '\\'
          · subst hb2
            rw [jsonEscape_backslash] at h
            simp only [List.cons_append] at h
            injection h with h1 _
            exact absurd h1 hb1
          · by_cases hq2 : c2 = '"'
            · subst hq2
              rw [jsonEscape_quotechar] at h
              simp only [List.cons_append] at h
              injection h with h1 _
              exact absurd h1 hb1
            · rw [jsonEscape_plain c2 t2 hb2 hq2] at h
              simp only [List.cons_append] at h
              injection h with h1 h2
              obtain ⟨ht, hr⟩ := ih t2 r1 r2 h2
              exact ⟨by rw [h1, ht], hr⟩

theorem data_quote_lit : ("\"" : String).data = ['"'] := rfl

theorem data_colon_lit : (":" : String).data = [':'] := rfl

theorem data_comma_lit : ("," : String).data = [','] := rfl

theorem data_mk (l : List Char) : (String.mk l).data = l := rfl

theorem jsonRecordBody_single (k v : String) :
    jsonRecordBody [(k, v)] = jsonQuote k ++ ":" ++ jsonQuote v ++ "" := rfl

theorem jsonRecordBody_cons_cons (k v : String) (q : String × String)
    (t : List (String × String)) :
    jsonRecordBody ((k, v) :: q :: t) =
      jsonQuote k ++ ":" ++ jsonQuote v ++ ("," ++ jsonRecordBody (q :: t)) := rfl

theorem jsonRecordBody_data (ps : List (String × String)) :
    (jsonRecordBody ps).data = entriesData ps := by
  induction ps with
  | nil => rfl
  | cons p t ih =>
    obtain ⟨k, v⟩ := p
    cases t with
    | nil =>
      rw [jsonRecordBody_single]
      simp [entriesData, jsonQuote, String.data_append,
        data_quote_lit, data_colon_lit, data_mk]
    | cons q t2 =>
      rw [jsonRecordBody_cons_cons]
      simp only [entriesData, jsonQuote, String.data_append,
        data_quote_lit, data_colon_lit, data_comma_lit, data_mk, ih,
        List.cons_append, List.nil_append, List.append_nil, List.append_assoc]

theorem entriesData_close_inj (ps1 : List (String × String)) :
    ∀ ps2, entriesData ps1 ++ ['\x7d'] = entriesData ps2 ++ ['\x7d'] → ps1 = ps2 := by
  induction ps1 with
  | nil =>
    intro ps2 h
    cases ps2 with
    | nil => rfl
    | cons q t2 =>
      obtain ⟨k2, v2⟩ := q
      simp only [entriesData, List.nil_append, List.cons_append] at h
      injection h with h1 _
      exact absurd h1 (by decide)
  | cons p t1 ih =>
    intro ps2 h
    obtain ⟨k1, v1⟩ := p
    cases ps2 with
    | nil =>
      simp only [entriesData, List.nil_append, List.cons_append] at h
      injection h with h1 _
      exact absurd h1 (by decide)
    | cons q t2 =>
      obtain ⟨k2, v2⟩ := q
      simp only [entriesData, List.cons_append, List.append_assoc] at h
      injection h with _ h2
      obtain ⟨hk, h3⟩ := jsonEscape_quote_cancel _ _ _ _ h2
      injection h3 with _ h4
      injection h4 with _ h5
      obtain ⟨hv, h6⟩ := jsonEscape_quote_cancel _ _ _ _ h5
      have hkk : k1 = k2 := String.ext hk
      have hvv : v1 = v2 := String.ext hv
      cases t1 with
      | nil =>
        cases t2 with
        | nil => rw [hkk, hvv]
        | cons q2 t3 =>
          simp only [List.nil_append, List.cons_append] at h6
          injection h6 with h7 _
          exact absurd h7 (by decide)
      | cons q1 t3 =>
        cases t2 with
        | nil =>
          simp only [List.nil_append, List.cons_append] at h6
          injection h6 with h7 _
          exact absurd h7 (by decide)
        | cons q2 t4 =>
          simp only [List.cons_append] at h6
          injection h6 with _ h7
          have := ih (q2 :: t4) h7
          rw [hkk, hvv, this]

theorem jsonRecord_injective (ps1 ps2 : List (String × String))
    (h : jsonRecord ps1 = jsonRecord ps2) : ps1 = ps2 := by
  have h2 := congrArg String.data h
  have hd : ∀ ps : List (String × String),
      (jsonRecord ps).data = '\x7b' :: (entriesData ps ++ ['\x7d']) := by
    intro ps
    simp [jsonRecord, String.data_append, jsonRecordBody_data]
  rw [hd, hd] at h2
  injection h2 with _ h3
  exact entriesData_close_inj ps1 ps2 h3

theorem jsonRecordArg_injective (o1 o2 : Option (List (String × String)))
    (h : jsonRecordArg o1 = jsonRecordArg o2) : o1 = o2 := by
  cases o1 with
  | none =>
    cases o2 with
    | none => rfl
    | some ps2 =>
      have h2 := congrArg String.data h
      simp only [jsonRecordArg, jsonRecord, String.data_append] at h2
      injection h2 with _ h3
      injection h3 with h4 _
      exact absurd h4 (by decide)
  | some ps1 =>
    cases o2 with
    | none =>
      have h2 := congrArg String.data h
      simp only [jsonRecordArg, jsonRecord, String.data_append] at h2
      injection h2 with _ h3
      injection h3 with h4 _
      exact absurd h4 (by decide)
    | some ps2 =>
      simp only [jsonRecordArg] at h
      have h2 : ("[" : String) ++ jsonRecord ps1 = "[" ++ jsonRecord ps2 :=
        str_append_cancel_right _ _ "]" h
      have h3 := str_append_cancel_left "[" _ _ h2
      rw [jsonRecord_injective ps1 ps2 h3]

/-! ### Cache behaviour -/

theorem setCache_disabled {α : Type u} (s : ServiceState α) (k : String) (d : α)
    (t : Option Int) (n : Int) (h : s.enableCache = false) : setCache s k d t n = s := by
  simp [setCache, h]

theorem getCache_disabled {α : Type u} (s : ServiceState α) (k : String) (n : Int)
    (h : s.enableCache = false) : getCache s k n = (none, s) := by
  simp [getCache, h]

theorem clearCache_pattern_removes {α : Type u} (s : ServiceState α) (p k : String)
    (h : strIncludes k p = true) : mapGet (clearCache s (some p)).cache k = none := by
  simp only [clearCache]
  exact mapGet_filter_out s.cache (fun x => !strIncludes x p) k (by simp [h])

theorem clearCache_pattern_keeps {α : Type u} (s : ServiceState α) (p k : String)
    (h : strIncludes k p = false) :
    mapGet (clearCache s (some p)).cache k = mapGet s.cache k := by
  simp only [clearCache]
  exact mapGet_filter_keep s.cache (fun x => !strIncludes x p) k (by simp [h])

theorem clearCache_enableCache {α : Type u} (s : ServiceState α) (p : Option String) :
    (clearCache s p).enableCache = s.enableCache := by
  cases p <;> simp [clearCache]

theorem getCache_val_congr {α : Type u} (s1 s2 : ServiceState α) (k : String) (now : Int)
    (he : s1.enableCache = s2.enableCache) (hm : mapGet s1.cache k = mapGet s2.cache k) :
    (getCache s1 k now).1 = (getCache s2 k now).1 := by
  by_cases h : s2.enableCache = false
  · simp [getCache, he, h]
  · simp only [getCache, he, h, if_neg, hm]
    cases h2 : mapGet s2.cache k with
    | none => simp
    | some e =>
      by_cases h3 : now - e.timestamp > e.ttl
      · simp [h3]
      · simp [h3]

/-! ### Service operations with caching disabled -/

theorem runOp_disabled {α : Type u} (s : ServiceState α) (op : ServiceOp α)
    (h : s.enableCache = false) (hc : s.cache = []) :
    (runOp s op).1.enableCache = false ∧ (runOp s op).1.cache = [] ∧
      (runOp s op).2 = false := by
  cases op <;>
    simp [runOp, cachedRead, getCache_disabled _ _ _ h, setCache_disabled _ _ _ _ _ h,
      clearCache, h, hc]

theorem runOps_disabled {α : Type u} (ops : List (ServiceOp α)) :
    ∀ s : ServiceState α, s.enableCache = false → s.cache = [] →
      (runOps s ops).1.cache = [] ∧ ∀ b ∈ (runOps s ops).2, b = false := by
  induction ops with
  | nil =>
    intro s h hc
    exact ⟨hc, by intro b hb; cases hb⟩
  | cons op t ih =>
    intro s h hc
    obtain ⟨h1, h2, h3⟩ := runOp_disabled s op h hc
    obtain ⟨h4, h5⟩ := ih (runOp s op).1 h1 h2
    refine ⟨by simpa [runOps] using h4, ?_⟩
    intro b hb
    simp only [runOps, List.mem_cons] at hb
    rcases hb with hb | hb
    · rw [hb, h3]
    · exact h5 b hb

/-! ### Stored ttl of read operations -/

theorem runOp_search_stores {α : Type u} (e q : String) (resp : α) (now : Int) :
    mapGet ((runOp (initService α ⟨e, none, none⟩) (.search q [] resp now)).1.cache)
        (getCacheKey e "search" (jsonRecordArg (some [("q", q)]))) =
      some ⟨resp, now, searchCacheTTLms⟩ := by
  simp [runOp, cachedRead, getCache, setCache, initService, jsOrInt, mapGet, mapSet,
    searchCacheTTLms, defaultCacheTimeoutMs]

theorem runOp_getAll_stores {α : Type u} (e : String)
    (ps : Option (List (String × String))) (resp : α) (now : Int) :
    mapGet ((runOp (initService α ⟨e, none, none⟩) (.getAll ps resp now)).1.cache)
        (getCacheKey e "getAll" (jsonRecordArg ps)) =
      some ⟨resp, now, defaultCacheTimeoutMs⟩ := by
  simp [runOp, cachedRead, getCache, setCache, initService, jsOrInt, mapGet, mapSet,
    defaultCacheTimeoutMs]

theorem jsNonEmptyOr_ne_empty (s d : String) (hd : d ≠ "") : jsNonEmptyOr s d ≠ "" := by
  unfold jsNonEmptyOr
  by_cases h : s = ""
  · rw [if_pos h]
    exact hd
  · rw [if_neg h]
    exact h

/-! ## Claim theorems -/

/-- C1 (code-bug evidence): for a received response with failure status 404 and a
parseable body, `handleResponse` raises the status-carrying typed error, exactly as
specified — but `request`, whose `catch` block rewraps every caught `Error`
(including the `ApiErrorClass` thrown by `handleResponse`, which extends `Error`),
delivers to the caller an error with `statusCode 0` and `machineCode
"NETWORK_ERROR"` instead of one carrying status 404.  The third conjunct shows the
genuine network-failure path, the only one the claim permits to produce
`statusCode 0`. -/
theorem request_rewraps_received_status :
    handleResponse ⟨404, "Not Found", some ⟨some "Not found", none, none, none⟩⟩ =
      .error ⟨"Not found", 404, none, none⟩ ∧
    request (.response ⟨404, "Not Found", some ⟨some "Not found", none, none, none⟩⟩) =
      .error ⟨"Not found", 0, some "NETWORK_ERROR", none⟩ ∧
    request (.response ⟨500, "Internal Server Error", none⟩) =
      .error ⟨"Failed to parse response", 0, some "NETWORK_ERROR", none⟩ ∧
    request (.networkFailure "fetch failed") =
      .error ⟨"fetch failed", 0, some "NETWORK_ERROR", none⟩ :=
  ⟨rfl, rfl, rfl, rfl⟩

/-- C2 (counterexample): at `now` exactly equal to the stored `resetTime`, the claim
("window has elapsed when `now >= windowResetAt`") predicts a reset returning
`allowed = true`; the code tests `now > current.resetTime` and instead refuses the
request. -/
theorem checkRateLimit_boundary_counterexample :
    (checkRateLimit [("rate_limit:alice", ⟨1, 100⟩)] 100 "alice" 1 500).1.allowed = false ∧
    ¬ ((checkRateLimit [("rate_limit:alice", ⟨1, 100⟩)] 100 "alice" 1 500).1 =
        ⟨true, 100 + 500⟩) := by
  refine ⟨rfl, ?_⟩
  intro h
  exact Bool.noConfusion (congrArg RateLimitResult.allowed h)

/-- C2 (amended): `checkRateLimit` creates/replaces the record with `count = 1`,
`windowResetAt = now + windowMs` and allows the request when no record exists or
the window has strictly elapsed (`now > windowResetAt`); otherwise, below the
ceiling it increments the count and allows; at or above the ceiling it refuses
with the existing `resetAt` and leaves the stored record unchanged. -/
theorem checkRateLimit_spec (m : RateLimitMap) (now : Nat) (id : String) (maxR w : Nat) :
    (mapGet m (rateLimitKey id) = none →
      checkRateLimit m now id maxR w =
        (⟨true, now + w⟩, mapSet m (rateLimitKey id) ⟨1, now + w⟩)) ∧
    (∀ c, mapGet m (rateLimitKey id) = some c → now > c.resetTime →
      checkRateLimit m now id maxR w =
        (⟨true, now + w⟩, mapSet m (rateLimitKey id) ⟨1, now + w⟩)) ∧
    (∀ c, mapGet m (rateLimitKey id) = some c → now ≤ c.resetTime → c.count ≥ maxR →
      checkRateLimit m now id maxR w = (⟨false, c.resetTime⟩, m)) ∧
    (∀ c, mapGet m (rateLimitKey id) = some c → now ≤ c.resetTime → c.count < maxR →
      checkRateLimit m now id maxR w =
        (⟨true, c.resetTime⟩, mapSet m (rateLimitKey id) ⟨c.count + 1, c.resetTime⟩)) := by
  refine ⟨?_, ?_, ?_, ?_⟩
  · intro h
    simp [checkRateLimit, h]
  · intro c hc hnow
    simp [checkRateLimit, hc, hnow]
  · intro c hc hnow hcount
    have h1 : ¬ now > c.resetTime := by omega
    simp [checkRateLimit, hc, h1, hcount]
  · intro c hc hnow hcount
    have h1 : ¬ now > c.resetTime := by omega
    have h2 : ¬ c.count ≥ maxR := by omega
    simp [checkRateLimit, hc, h1, h2]

/-- C2 (witness): the fresh-identity branch of `checkRateLimit_spec` evaluated at a
concrete input. -/
theorem checkRateLimit_spec_witness :
    checkRateLimit [] 0 "alice" 5 900000 =
      (⟨true, 0 + 900000⟩, mapSet [] (rateLimitKey "alice") ⟨1, 0 + 900000⟩) :=
  (checkRateLimit_spec [] 0 "alice" 5 900000).1 rfl

/-- C5 (counterexample): a `TypedError` with status 400 and a present-but-empty
`details` record makes `ApiErrorHandler.handleError` return the empty string
(`Object.values(details).flat().join(', ')` over no entries), refuting "returns a
non-empty string whatever its message and details fields contain". -/
theorem handleError_empty_counterexample :
    handleError ⟨"some message", 400, none, some []⟩ = "" := rfl

/-- C5 (amended): `handleError` returns a non-empty string for every `TypedError`
except in the degenerate case where the status is 400 or 422 and `details` is
present but its flattened field messages join to the empty string. -/
theorem handleError_nonempty (e : ApiErrorClass)
    (h : (e.status = 400 ∨ e.status = 422) → ∀ d, e.details = some d → joinDetails d ≠ "") :
    handleError e ≠ "" := by
  unfold handleError
  by_cases h400 : e.status = 400
  · rw [if_pos h400]
    cases hd : e.details with
    | some d => exact h (Or.inl h400) d hd
    | none => exact jsNonEmptyOr_ne_empty _ _ (by decide)
  · rw [if_neg h400]
    by_cases h401 : e.status = 401
    · rw [if_pos h401]; decide
    · rw [if_neg h401]
      by_cases h403 : e.status = 403
      · rw [if_pos h403]; decide
      · rw [if_neg h403]
        by_cases h404 : e.status = 404
        · rw [if_pos h404]; decide
        · rw [if_neg h404]
          by_cases h409 : e.status = 409
          · rw [if_pos h409]; decide
          · rw [if_neg h409]
            by_cases h422 : e.status = 422
            · rw [if_pos h422]
              cases hd : e.details with
              | some d => exact h (Or.inr h422) d hd
              | none => decide
            · rw [if_neg h422]
              by_cases h500 : e.status = 500
              · rw [if_pos h500]; decide
              · rw [if_neg h500]
                by_cases h0 : e.status = 0
                · rw [if_pos h0]; decide
                · rw [if_neg h0]
                  exact jsNonEmptyOr_ne_empty _ _ (by decide)

/-- C5 (witness): `handleError_nonempty` at a concrete unknown-status error. -/
theorem handleError_nonempty_witness : handleError ⟨"boom", 999, none, none⟩ ≠ "" :=
  handleError_nonempty ⟨"boom", 999, none, none⟩
    (fun _ _ hd => Option.noConfusion hd)

/-- C8 (counterexample): the search cache ttl (60000 ms) is not one-twelfth of the
default cache timeout (300000 ms), and it is not shorter than every configurable
fetch-all ttl: a service constructed with `cacheTimeout = 30000` gives full-list
reads a shorter ttl than search. -/
theorem search_ttl_counterexample :
    ¬ (12 * searchCacheTTLms = defaultCacheTimeoutMs) ∧
    ¬ (searchCacheTTLms < jsOrInt (some 30000) defaultCacheTimeoutMs) := by
  refine ⟨by decide, by decide⟩

/-- C8 (amended): the search operation caches its result with the fixed ttl
60000 ms — one-fifth of the 300000 ms default cache timeout and strictly shorter
than it — while `getAll` under the default configuration stores entries with the
default timeout; both stored ttls are exhibited on the resulting cache entries. -/
theorem search_ttl_spec :
    5 * searchCacheTTLms = defaultCacheTimeoutMs ∧
    searchCacheTTLms < defaultCacheTimeoutMs ∧
    (∀ (α : Type) (e q : String) (resp : α) (now : Int),
      mapGet ((runOp (initService α ⟨e, none, none⟩) (.search q [] resp now)).1.cache)
          (getCacheKey e "search" (jsonRecordArg (some [("q", q)]))) =
        some ⟨resp, now, searchCacheTTLms⟩) ∧
    (∀ (α : Type) (e : String) (ps : Option (List (String × String))) (resp : α) (now : Int),
      mapGet ((runOp (initService α ⟨e, none, none⟩) (.getAll ps resp now)).1.cache)
          (getCacheKey e "getAll" (jsonRecordArg ps)) =
        some ⟨resp, now, defaultCacheTimeoutMs⟩) := by
  refine ⟨by decide, by decide, ?_, ?_⟩
  · intro α e q resp now
    exact runOp_search_stores e q resp now
  · intro α e ps resp now
    exact runOp_getAll_stores e ps resp now

/-- C9: rate-limiter noninterference across identities — for any two request
sequences whose subsequences of requests issued under identity `y` coincide (they
may differ arbitrarily in the requests of other identities), the results returned
to `y` are identical. -/
theorem rate_limiter_noninterference (m : RateLimitMap) (reqs1 reqs2 : List RateRequest)
    (y : String)
    (h : reqs1.filter (fun r => r.identifier == y) =
      reqs2.filter (fun r => r.identifier == y)) :
    resultsFor y m reqs1 = resultsFor y m reqs2 := by
  rw [resultsFor_eq_runSingle, resultsFor_eq_runSingle, h]

/-- C9 (witness): `rate_limiter_noninterference` at concrete sequences differing
only in a request of identity `alice`. -/
theorem rate_limiter_noninterference_witness :
    resultsFor "bob" [] [⟨"alice", 5, 1, 1000⟩] = resultsFor "bob" [] [] :=
  rate_limiter_noninterference [] [⟨"alice", 5, 1, 1000⟩] [] "bob" (by decide)

/-- C3 (counterexample): an entry stored at time 0 with ttl 5 is still served at
`now = 5`, although `now - storedAt < ttl` fails there: the code's validity test
is `now - timestamp ≤ ttl`, expiring only when strictly greater. -/
theorem getCache_ttl_boundary_counterexample :
    (getCache (setCache (initService Nat ⟨"guests", none, none⟩) "k" 42 (some 5) 0)
        "k" 5).1 = some 42 ∧
    ¬ ((5 : Int) - 0 < 5) :=
  ⟨rfl, by decide⟩

/-- C3 (amended): with caching enabled and a nonzero ttl argument, after
`setCache key v ttl` at time `tset`, `getCache key` at time `now` returns the
stored value iff `now - tset ≤ ttl` (not the claimed strict `<`); once
`now - tset > ttl` the lookup deletes the entry, so the cache no longer holds the
key and only a subsequent set re-populates it. -/
theorem getCache_ttl_spec (α : Type) (s : ServiceState α) (key : String) (v : α)
    (t tset now : Int) (he : s.enableCache = true) (ht : t ≠ 0) :
    ((getCache (setCache s key v (some t) tset) key now).1 = some v ↔ now - tset ≤ t) ∧
    (now - tset > t →
      mapGet ((getCache (setCache s key v (some t) tset) key now).2).cache key = none) := by
  have hset : setCache s key v (some t) tset =
      { s with cache := mapSet s.cache key ⟨v, tset, t⟩ } := by
    simp [setCache, he, jsOrInt, ht]
  have hget := mapGet_mapSet_same s.cache key (⟨v, tset, t⟩ : CacheEntry α)
  rw [hset]
  constructor
  · by_cases hexp : now - tset > t
    · simp only [getCache, he, hget]
      simp [hexp]
      omega
    · simp only [getCache, he, hget]
      simp [hexp]
      omega
  · intro hexp
    simp [getCache, he, hget, hexp, mapGet_mapDelete_same]

/-- C3 (witness): `getCache_ttl_spec` evaluated within the ttl bound at a concrete
input. -/
theorem getCache_ttl_spec_witness :
    (getCache (setCache (initService Nat ⟨"guests", none, none⟩) "k" 7 (some 5) 0)
        "k" 3).1 = some 7 :=
  ((getCache_ttl_spec Nat (initService Nat ⟨"guests", none, none⟩) "k" 7 5 0 3 rfl
    (by decide)).1).mpr (by decide)

/-- C4 (counterexample): parameter records carrying the same mappings in a
different source-code ordering — a permutation with identical lookups — serialize
differently under `JSON.stringify`'s insertion order, so two logically-identical
requests get different cache keys. -/
theorem getCacheKey_order_counterexample :
    ([("a", "1"), ("b", "2")] : List (String × String)).Perm [("b", "2"), ("a", "1")] ∧
    mapGet [("a", "1"), ("b", "2")] "a" = mapGet [("b", "2"), ("a", "1")] "a" ∧
    mapGet [("a", "1"), ("b", "2")] "b" = mapGet [("b", "2"), ("a", "1")] "b" ∧
    getCacheKey "guests" "getAll" (jsonRecordArg (some [("a", "1"), ("b", "2")])) ≠
      getCacheKey "guests" "getAll" (jsonRecordArg (some [("b", "2"), ("a", "1")])) := by
  refine ⟨by decide, rfl, rfl, by decide⟩

/-- C4 (amended): the cache key is a deterministic function of
(endpoint, operation, serialized params) — recomputing it yields the identical
string — and changing exactly one of the three components changes the key:
distinct endpoints, distinct operation names, or distinct parameter records (in
particular reordered ones, per the counterexample) give distinct keys. -/
theorem getCacheKey_deterministic_injective :
    (∀ (e m : String) (ps : Option (List (String × String))),
      getCacheKey e m (jsonRecordArg ps) = getCacheKey e m (jsonRecordArg ps)) ∧
    (∀ e1 e2 m p : String, e1 ≠ e2 → getCacheKey e1 m p ≠ getCacheKey e2 m p) ∧
    (∀ e m1 m2 p : String, m1 ≠ m2 → getCacheKey e m1 p ≠ getCacheKey e m2 p) ∧
    (∀ (e m : String) (ps1 ps2 : Option (List (String × String))), ps1 ≠ ps2 →
      getCacheKey e m (jsonRecordArg ps1) ≠ getCacheKey e m (jsonRecordArg ps2)) := by
  refine ⟨fun e m ps => rfl, ?_, ?_, ?_⟩
  · intro e1 e2 m p hne h
    exact hne (getCacheKey_inj_endpoint e1 e2 m p h)
  · intro e m1 m2 p hne h
    exact hne (getCacheKey_inj_method e m1 m2 p h)
  · intro e m ps1 ps2 hne h
    exact hne (jsonRecordArg_injective ps1 ps2 (getCacheKey_inj_params e m _ _ h))

/-- C4 (witness): the endpoint-injectivity conjunct of
`getCacheKey_deterministic_injective` at concrete endpoints. -/
theorem getCacheKey_deterministic_injective_witness :
    getCacheKey "guests" "getAll" "p" ≠ getCacheKey "rsvps" "getAll" "p" :=
  getCacheKey_deterministic_injective.2.1 "guests" "rsvps" "getAll" "p" (by decide)

/-- C6 (counterexample): a cached fetch-by-id entry whose id contains the
substring "getAll" is wiped by create's substring invalidation
`clearCache('getAll')`: before the create its lookup is a hit, afterwards it
misses, refuting "every previously-cached fetch-by-id entry for an existing id
remains present". -/
theorem create_invalidation_counterexample :
    (getCache (⟨"ep", [(getCacheKey "ep" "getById" (jsonStringArg "getAll1"),
          ⟨7, 0, 1000⟩)], 300000, true⟩ : ServiceState Nat)
        (getCacheKey "ep" "getById" (jsonStringArg "getAll1")) 10).1 = some 7 ∧
    (getCache (runOp (⟨"ep", [(getCacheKey "ep" "getById" (jsonStringArg "getAll1"),
          ⟨7, 0, 1000⟩)], 300000, true⟩ : ServiceState Nat) (.create 9 5)).1
        (getCacheKey "ep" "getById" (jsonStringArg "getAll1")) 10).1 = none :=
  ⟨rfl, rfl⟩

/-- C6 (amended): after a successful create (which calls `clearCache('getAll')`),
every cache key containing "getAll" as a substring — in particular every cached
fetch-all variant — is gone, while any entry whose key does not contain "getAll"
(all fetch-by-id keys except those whose serialized id mentions "getAll") is
untouched: its next lookup returns exactly what it returned before. -/
theorem create_invalidation_spec (α : Type) (s : ServiceState α) (resp : α)
    (cnow : Int) (k1 k2 : String) (now2 : Int)
    (h1 : strIncludes k1 "getAll" = true) (h2 : strIncludes k2 "getAll" = false) :
    mapGet ((runOp s (.create resp cnow)).1).cache k1 = none ∧
    (∀ e p : String, strIncludes (getCacheKey e "getAll" p) "getAll" = true) ∧
    (getCache ((runOp s (.create resp cnow)).1) k2 now2).1 = (getCache s k2 now2).1 := by
  have hrun : (runOp s (.create resp cnow)).1 = clearCache s (some "getAll") := rfl
  refine ⟨?_, ?_, ?_⟩
  · rw [hrun]
    exact clearCache_pattern_removes s "getAll" k1 h1
  · intro e p
    exact strIncludes_getCacheKey_getAll e p
  · rw [hrun]
    exact getCache_val_congr _ _ k2 now2 (clearCache_enableCache s _)
      (clearCache_pattern_keeps s "getAll" k2 h2)

/-- C6 (witness): `create_invalidation_spec` at a concrete state holding a cached
fetch-all entry, which the create wipes. -/
theorem create_invalidation_spec_witness :
    mapGet ((runOp (⟨"ep", [("ep:getAll:[null]", ⟨3, 0, 1000⟩)], 300000, true⟩ :
        ServiceState Nat) (.create 9 5)).1).cache "ep:getAll:[null]" = none :=
  (create_invalidation_spec Nat
    (⟨"ep", [("ep:getAll:[null]", ⟨3, 0, 1000⟩)], 300000, true⟩ : ServiceState Nat)
    9 5 "ep:getAll:[null]" "x" 0 (by decide) (by decide)).1

/-- C7 (counterexample): storing with `ttl = 0` does not behave as immediately
expired: `ttl || this.cacheTimeout` treats 0 as falsy and stores the default
timeout instead, so a lookup 1 ms later still returns the value. -/
theorem ttl_zero_counterexample :
    (getCache (setCache (initService Nat ⟨"guests", none, none⟩) "k" 42 (some 0) 0)
        "k" 1).1 = some 42 ∧
    ¬ ((getCache (setCache (initService Nat ⟨"guests", none, none⟩) "k" 42 (some 0) 0)
        "k" 1).1 = none) :=
  ⟨rfl, by decide⟩

/-- C7 (amended): a negative ttl behaves as immediately expired — every lookup at
or after the store time returns absent, with no error — while a zero ttl is
treated as "no ttl given" by the `ttl || cacheTimeout` fallback and stores the
configured default timeout instead. -/
theorem ttl_nonpositive_spec (α : Type) (s : ServiceState α) (key : String) (v v2 : α)
    (t tset now : Int) (he : s.enableCache = true) (hneg : t < 0) (hle : tset ≤ now) :
    (getCache (setCache s key v (some t) tset) key now).1 = none ∧
    mapGet (setCache s key v2 (some 0) tset).cache key = some ⟨v2, tset, s.cacheTimeout⟩ := by
  have ht : t ≠ 0 := by omega
  have hset : setCache s key v (some t) tset =
      { s with cache := mapSet s.cache key ⟨v, tset, t⟩ } := by
    simp [setCache, he, jsOrInt, ht]
  constructor
  · rw [hset]
    have hget := mapGet_mapSet_same s.cache key (⟨v, tset, t⟩ : CacheEntry α)
    have hexp : now - tset > t := by omega
    simp [getCache, he, hget, hexp]
  · have hset0 : setCache s key v2 (some 0) tset =
        { s with cache := mapSet s.cache key ⟨v2, tset, s.cacheTimeout⟩ } := by
      simp [setCache, he, jsOrInt]
    rw [hset0]
    exact mapGet_mapSet_same _ _ _

/-- C7 (witness): `ttl_nonpositive_spec` at a concrete negative ttl. -/
theorem ttl_nonpositive_spec_witness :
    (getCache (setCache (initService Nat ⟨"guests", none, none⟩) "k" 42 (some (-5)) 0)
        "k" 0).1 = none :=
  (ttl_nonpositive_spec Nat (initService Nat ⟨"guests", none, none⟩) "k" 42 42 (-5) 0 0
    rfl (by decide) (by decide)).1

/-- C10: with `enableCache = false` in the constructor config, the service's cache
map stays empty under every operation sequence and no operation is ever served
from the cache (every read issues a transport call); moreover, on any state with
caching disabled, `setCache` is a no-op and `getCache` returns absent. -/
theorem cache_disabled_spec (α : Type) (cfg : ServiceConfig)
    (h : cfg.enableCache = some false) :
    (∀ ops : List (ServiceOp α),
      (runOps (initService α cfg) ops).1.cache = [] ∧
      ∀ b ∈ (runOps (initService α cfg) ops).2, b = false) ∧
    (∀ s : ServiceState α, s.enableCache = false →
      (∀ (k : String) (d : α) (t : Option Int) (n : Int), setCache s k d t n = s) ∧
      (∀ (k : String) (n : Int), getCache s k n = (none, s))) := by
  have hinit : (initService α cfg).enableCache = false := by simp [initService, h]
  constructor
  · intro ops
    exact runOps_disabled ops (initService α cfg) hinit rfl
  · intro s hs
    exact ⟨fun k d t n => setCache_disabled s k d t n hs,
      fun k n => getCache_disabled s k n hs⟩

/-- C10 (witness): `cache_disabled_spec` at a concrete config and op sequence. -/
theorem cache_disabled_spec_witness :
    (runOps (initService Nat ⟨"guests", none, some false⟩)
      [.getAll none 42 0, .create 7 1]).1.cache = [] :=
  ((cache_disabled_spec Nat ⟨"guests", none, some false⟩ rfl).1
    [.getAll none 42 0, .create 7 1]).1

end WeddingRSVP
